import Mathlib

/-!
Verification of the nnet3 training core (`nnet-training.cc` / `nnet-training.h`):
the objective-function evaluator `ComputeObjectiveFunction`, the phase-based
statistics aggregator `ObjectiveFunctionInfo`, and the trainer-level loops
`NnetTrainer::ProcessOutputs` and `NnetTrainer::PrintTotalStats`.

Real-valued quantities (`BaseFloat` / `double` in the source) are embedded as
exact rationals; a dense matrix is a list of rows.  The CUDA matrix library is
an external collaborator of this code: its operations (`Sum`, `TraceMatMat`,
`TraceMatSmat`, `AddMat`, `CopyToMat`, `CopyFromGeneralMat`) are embedded by
their mathematical definitions on the row-list representation.
-/

deriving instance DecidableEq for Except

namespace KaldiNnet3

/-- Dense matrix of rationals, as a list of rows (`Matrix<BaseFloat>` /
`CuMatrix<BaseFloat>`). -/
abbrev Mat := List (List ℚ)

/-- Number of rows of a dense matrix (`NumRows()`). -/
def matNumRows (m : Mat) : ℕ := m.length

/-- Number of columns of a dense matrix (`NumCols()`); on the row-list
representation this is the length of the first row (0 for an empty matrix). -/
def matNumCols (m : Mat) : ℕ := (m.headD []).length

/-- Entry `m[i][j]`, defaulting to 0 out of range. -/
def entry (m : Mat) (i j : ℕ) : ℚ := (m.getD i []).getD j 0

/-- The matrix is rectangular with `r` rows and `c` columns. -/
def Rect (m : Mat) (r c : ℕ) : Prop :=
  m.length = r ∧ ∀ row ∈ m, row.length = c

/-- Dot product of two rows, truncating at the shorter one
(the library asserts equal dimensions; callers here satisfy that). -/
def dotRow (a b : List ℚ) : ℚ := (List.zipWith (· * ·) a b).sum

/-- Embedding of `TraceMatMat(a, b, kTrans)`: the sum of the element-wise
product of two matrices of the same shape. -/
def traceMatMat (a b : Mat) : ℚ := (List.zipWith dotRow a b).sum

/-- Embedding of `CuMatrix::Sum()`: the sum of all entries. -/
def matSum (m : Mat) : ℚ := (m.map List.sum).sum

/-- Embedding of `m.AddMat(alpha, a)`: returns `m + alpha * a` element-wise. -/
def addMat (alpha : ℚ) (a m : Mat) : Mat :=
  List.zipWith (fun mrow arow => List.zipWith (fun x y => x + alpha * y) mrow arow) m a

/-- One row of a sparse matrix (`SparseVector<BaseFloat>`): stored
(column, value) pairs. -/
abbrev SRow := List (ℕ × ℚ)

/-- Sparse matrix (`SparseMatrix<BaseFloat>`) as its list of sparse rows;
the column dimension is carried separately by `GeneralMatrix`. -/
abbrev SMat := List SRow

/-- Sum of the stored values of one sparse row. -/
def sRowSum (s : SRow) : ℚ := (s.map Prod.snd).sum

/-- Embedding of `CuSparseMatrix::Sum()`: sum of all stored values. -/
def sMatSum (s : SMat) : ℚ := (s.map sRowSum).sum

/-- Dot product of a dense row with a sparse row: each stored pair `(c, v)`
contributes `a[c] * v` (0 when `c` is out of range of the dense row). -/
def sRowDot (a : List ℚ) (s : SRow) : ℚ :=
  (s.map (fun p => a.getD p.1 0 * p.2)).sum

/-- Embedding of `TraceMatSmat(a, s, kTrans)`: the sum over shared rows of the
dense-row / sparse-row dot products. -/
def traceMatSmat (a : Mat) (s : SMat) : ℚ := (List.zipWith sRowDot a s).sum

/-- Add `v` to position `c` of a dense row (no-op out of range). -/
def addAt : List ℚ → ℕ → ℚ → List ℚ
  | [], _, _ => []
  | x :: xs, 0, v => (x + v) :: xs
  | x :: xs, n + 1, v => x :: addAt xs n v

/-- Decode one sparse row to a dense row of width `w`
(`SparseVector::CopyElementsToVec`-style accumulation). -/
def decodeRow (w : ℕ) (s : SRow) : List ℚ :=
  s.foldr (fun p acc => addAt acc p.1 p.2) (List.replicate w 0)

/-- Decode a sparse matrix to a dense matrix of column width `w`
(`CuSparseMatrix::CopyToMat`). -/
def decodeSMat (w : ℕ) (s : SMat) : Mat := s.map (decodeRow w)

/-- The three supervision encodings of `GeneralMatrix`.  The compressed codec
itself lives outside this code; per the interface contract it decodes to the
logical real-valued matrix, so the compressed case carries that matrix. -/
inductive GeneralMatrix : Type
  | sparseMatrix (numCols : ℕ) (s : SMat)
  | fullMatrix (m : Mat)
  | compressedMatrix (m : Mat)
deriving DecidableEq

/-- Row count of a `GeneralMatrix` (`GeneralMatrix::NumRows`). -/
def GeneralMatrix.NumRows : GeneralMatrix → ℕ
  | .sparseMatrix _ s => s.length
  | .fullMatrix m => matNumRows m
  | .compressedMatrix m => matNumRows m

/-- Column count of a `GeneralMatrix` (`GeneralMatrix::NumCols`); the sparse
encoding stores it explicitly. -/
def GeneralMatrix.NumCols : GeneralMatrix → ℕ
  | .sparseMatrix n _ => n
  | .fullMatrix m => matNumCols m
  | .compressedMatrix m => matNumCols m

/-- Decode any encoding to the logical dense matrix
(`CuMatrix::CopyFromGeneralMat` / `GeneralMatrix::GetMatrix`). -/
def GeneralMatrix.toFullMatrix : GeneralMatrix → Mat
  | .sparseMatrix n s => decodeSMat n s
  | .fullMatrix m => m
  | .compressedMatrix m => m

/-- Objective kinds of an output node (`ObjectiveType` in nnet-nnet.h, whose
declared values are exactly `kLinear` and `kQuadratic`; the `switch` default
of the source is therefore unreachable). -/
inductive ObjectiveType : Type
  | kLinear
  | kQuadratic
deriving DecidableEq

/-- Result of `ComputeObjectiveFunction`: the two `BaseFloat` outputs plus the
derivative matrix handed to `NnetComputer::AcceptOutputDeriv` when
`supply_deriv` is set (`none` when it is not). -/
structure ObjResult : Type where
  tot_weight : ℚ
  tot_objf : ℚ
  deriv : Option Mat
deriving DecidableEq

/-- The `KALDI_ERR` message for an output/supervision column-count mismatch,
built exactly as in the source. -/
def dimMismatchMsg (output_name : String) (nnetCols egsCols : ℕ) : String :=
  "Nnet versus example output dimension (num-classes) mismatch for '" ++
    output_name ++ "': " ++ toString nnetCols ++ " (nnet) vs. " ++
    toString egsCols ++ " (egs)\n"

/-- Embedding of `ComputeObjectiveFunction`.  `output` is the activation
matrix the source fetches via `computer->GetOutput(output_name)`; gradient
hand-off via `AcceptOutputDeriv` is represented by the `deriv` field of the
result.  A `KALDI_ERR` abort is an `Except.error` carrying the message. -/
def ComputeObjectiveFunction (supervision : GeneralMatrix)
    (objective_type : ObjectiveType) (output_name : String)
    (supply_deriv : Bool) (output : Mat) : Except String ObjResult :=
  if matNumCols output ≠ supervision.NumCols then
    .error (dimMismatchMsg output_name (matNumCols output) supervision.NumCols)
  else
    match objective_type with
    | .kLinear =>
      match supervision with
      | .sparseMatrix _ post =>
        .ok { tot_weight := sMatSum post
              tot_objf := traceMatSmat output post
              deriv := if supply_deriv
                then some (decodeSMat (matNumCols output) post) else none }
      | .fullMatrix m =>
        .ok { tot_weight := matSum m
              tot_objf := traceMatMat output m
              deriv := if supply_deriv then some m else none }
      | .compressedMatrix m =>
        .ok { tot_weight := matSum m
              tot_objf := traceMatMat output m
              deriv := if supply_deriv then some m else none }
    | .kQuadratic =>
      let diff := addMat (-1) output supervision.toFullMatrix
      .ok { tot_weight := (supervision.NumRows : ℚ)
            tot_objf := -(1/2) * traceMatMat diff diff
            deriv := if supply_deriv then some diff else none }

example :
    ComputeObjectiveFunction (.fullMatrix [[0]]) .kQuadratic "output" true [[1]] =
      .ok { tot_weight := 1, tot_objf := -(1/2), deriv := some [[-1]] } := by
  norm_num [ComputeObjectiveFunction, matNumCols, GeneralMatrix.NumCols,
    GeneralMatrix.NumRows, GeneralMatrix.toFullMatrix, addMat, traceMatMat,
    dotRow, matSum, matNumRows]

example :
    ComputeObjectiveFunction (.sparseMatrix 2 [[(1, 1)]]) .kLinear "output" true [[3, 5]] =
      .ok { tot_weight := 1, tot_objf := 5, deriv := some [[0, 1]] } := by
  norm_num [ComputeObjectiveFunction, matNumCols, GeneralMatrix.NumCols,
    sMatSum, sRowSum, traceMatSmat, sRowDot, decodeSMat, decodeRow, addAt,
    List.replicate, List.getD, List.getElem_cons_succ, List.getElem_cons_zero]
  rfl

example :
    ComputeObjectiveFunction (.fullMatrix [[1, 2]]) .kLinear "output" true [[3]] =
      .error (dimMismatchMsg "output" 1 2) := by
  norm_num [ComputeObjectiveFunction, matNumCols, GeneralMatrix.NumCols]

/-- Per-stream statistics state (`struct ObjectiveFunctionInfo`); the
`int32` phase index and the `double` accumulators. -/
structure ObjectiveFunctionInfo : Type where
  current_phase : ℕ
  tot_weight : ℚ
  tot_objf : ℚ
  tot_weight_this_phase : ℚ
  tot_objf_this_phase : ℚ
deriving DecidableEq

/-- The default-constructed state: phase 0, all accumulators zero. -/
def ObjectiveFunctionInfo.init : ObjectiveFunctionInfo :=
  { current_phase := 0, tot_weight := 0, tot_objf := 0
    tot_weight_this_phase := 0, tot_objf_this_phase := 0 }

/-- Content of the `KALDI_LOG` line printed by `PrintStatsForThisPhase`:
the stream name, the covered minibatch range, the phase average and the
phase weight. -/
structure PhaseReport : Type where
  output_name : String
  start_minibatch : ℕ
  end_minibatch : ℕ
  average : ℚ
  weight : ℚ
deriving DecidableEq

/-- Embedding of `ObjectiveFunctionInfo::PrintStatsForThisPhase`: builds the
log line for the phase that `info` is currently in. -/
def printStatsForThisPhase (info : ObjectiveFunctionInfo)
    (output_name : String) (minibatches_per_phase : ℕ) : PhaseReport :=
  { output_name := output_name
    start_minibatch := info.current_phase * minibatches_per_phase
    end_minibatch := info.current_phase * minibatches_per_phase + minibatches_per_phase - 1
    average := info.tot_objf_this_phase / info.tot_weight_this_phase
    weight := info.tot_weight_this_phase }

/-- The `KALDI_ASSERT(phase == current_phase + 1)` failure message. -/
def phaseAssertMsg : String :=
  "KALDI_ASSERT: phase == current_phase + 1"

/-- Accumulation common to both branches of `UpdateStats`: add this
minibatch's weight and objective to the phase sub-totals and to the running
totals. -/
def accumStats (info : ObjectiveFunctionInfo) (w o : ℚ) : ObjectiveFunctionInfo :=
  { info with
    tot_weight_this_phase := info.tot_weight_this_phase + w
    tot_objf_this_phase := info.tot_objf_this_phase + o
    tot_weight := info.tot_weight + w
    tot_objf := info.tot_objf + o }

/-- Embedding of `ObjectiveFunctionInfo::UpdateStats`.  Computes
`phase = minibatch_counter / minibatches_per_phase`; if the phase advanced it
first asserts the advance is by exactly one, flushes the completed phase's
report, resets the phase sub-totals and advances the phase; then it
accumulates this minibatch.  A failed assert aborts the process, so the
error carries no new state and no report. -/
def updateStats (info : ObjectiveFunctionInfo) (output_name : String)
    (minibatches_per_phase minibatch_counter : ℕ) (w o : ℚ) :
    Except String (ObjectiveFunctionInfo × Option PhaseReport) :=
  let phase := minibatch_counter / minibatches_per_phase
  if phase = info.current_phase then
    .ok (accumStats info w o, none)
  else if phase = info.current_phase + 1 then
    .ok (accumStats
          { info with current_phase := phase
                      tot_weight_this_phase := 0
                      tot_objf_this_phase := 0 } w o,
        some (printStatsForThisPhase info output_name minibatches_per_phase))
  else
    .error phaseAssertMsg

/-- Content of the `KALDI_LOG` line printed by
`ObjectiveFunctionInfo::PrintTotalStats`. -/
structure SummaryLine : Type where
  output_name : String
  average : ℚ
  weight : ℚ
deriving DecidableEq

/-- Embedding of `ObjectiveFunctionInfo::PrintTotalStats`: emits the overall
summary line and returns whether the total weight was nonzero. -/
def infoPrintTotalStats (info : ObjectiveFunctionInfo) (name : String) :
    SummaryLine × Bool :=
  ({ output_name := name
     average := info.tot_objf / info.tot_weight
     weight := info.tot_weight },
   decide (info.tot_weight ≠ 0))

/-- Embedding of `NnetTrainer::PrintTotalStats`.  The per-stream map is an
association list in iteration order.  The loop body is
`ans = ans || info.PrintTotalStats(name)`, whose built-in `||`
short-circuits: once `ans` is true the call — and hence its log line — is
skipped.  Returns the final `ans` and the lines actually emitted. -/
def trainerPrintTotalStats (m : List (String × ObjectiveFunctionInfo)) :
    Bool × List SummaryLine :=
  m.foldl
    (fun acc p =>
      if acc.1 then acc
      else
        let r := infoPrintTotalStats p.2 p.1
        (r.2, acc.2 ++ [r.1]))
    (false, [])

example :
    updateStats .init "output" 100 100 2 6 =
      .ok ({ current_phase := 1, tot_weight := 2, tot_objf := 6
             tot_weight_this_phase := 2, tot_objf_this_phase := 6 },
           some { output_name := "output", start_minibatch := 0
                  end_minibatch := 99, average := 0, weight := 0 }) := by
  norm_num [updateStats, accumStats, printStatsForThisPhase,
    ObjectiveFunctionInfo.init]

example : updateStats .init "output" 100 200 2 6 = .error phaseAssertMsg := by
  norm_num [updateStats, ObjectiveFunctionInfo.init]

/-- What the trainer needs of a network node: whether `IsOutputNode` holds
and the node's declared `u.objective_type`. -/
structure Node : Type where
  is_output : Bool
  objective_type : ObjectiveType
deriving DecidableEq

/-- One entry of `NnetExample::io`: the stream name and its matrix payload. -/
structure NnetIo : Type where
  name : String
  features : GeneralMatrix
deriving DecidableEq

/-- Lookup in a string-keyed association list (used for the network's node
table, the computer's outputs and the trainer's unordered map). -/
def lookupA {α : Type} (m : List (String × α)) (k : String) : Option α :=
  (m.find? (fun p => p.1 == k)).map Prod.snd

/-- Store a value under a key, replacing an existing binding or appending a
new one (the effect of writing through `unordered_map::operator[]`). -/
def mapSet {α : Type} : List (String × α) → String → α → List (String × α)
  | [], k, v => [(k, v)]
  | p :: rest, k, v =>
    if p.1 == k then (k, v) :: rest else p :: mapSet rest k v

/-- Trainer state touched by `ProcessOutputs`: the shared minibatch counter
`num_minibatches_processed_` and the per-stream map `objf_info_`. -/
structure TrainerState : Type where
  num_minibatches_processed : ℕ
  objf_info : List (String × ObjectiveFunctionInfo)
deriving DecidableEq

/-- Embedding of `NnetTrainer::ProcessOutputs`.  For each io entry whose
node is an output node it computes the objective (with `supply_deriv=true`),
then updates that stream's lazily-created map entry with the shared counter,
post-incrementing the counter.  Streams whose node is not an output are
skipped entirely.  A missing node index fails the `KALDI_ASSERT`; the
executor's `GetOutput` on an unknown name is likewise fatal (library
precondition).  Also returns the phase report emitted (if any) per processed
output stream. -/
def ProcessOutputs (nnet : List (String × Node)) (print_interval : ℕ)
    (computer : List (String × Mat)) :
    List NnetIo → TrainerState →
    Except String (TrainerState × List (Option PhaseReport))
  | [], st => .ok (st, [])
  | io :: rest, st =>
    match lookupA nnet io.name with
    | none => .error "KALDI_ASSERT: node_index >= 0"
    | some node =>
      if node.is_output then
        match lookupA computer io.name with
        | none => .error "GetOutput: no such output"
        | some out =>
          match ComputeObjectiveFunction io.features node.objective_type
              io.name true out with
          | .error e => .error e
          | .ok r =>
            match updateStats
                ((lookupA st.objf_info io.name).getD ObjectiveFunctionInfo.init)
                io.name print_interval st.num_minibatches_processed
                r.tot_weight r.tot_objf with
            | .error e => .error e
            | .ok (info', rep) =>
              match ProcessOutputs nnet print_interval computer rest
                  { num_minibatches_processed := st.num_minibatches_processed + 1
                    objf_info := mapSet st.objf_info io.name info' } with
              | .error e => .error e
              | .ok (st', reps) => .ok (st', rep :: reps)
      else
        ProcessOutputs nnet print_interval computer rest st

/-- Number of io entries of the example whose node exists and is classified
as an output node — exactly the streams for which the loop body of
`ProcessOutputs` runs. -/
def countOutputStreams (nnet : List (String × Node)) (eg : List NnetIo) : ℕ :=
  (eg.filter (fun io => ((lookupA nnet io.name).map Node.is_output).getD false)).length

/-- Feed a list of (weight, objective) updates to one stream's
`UpdateStats`, with consecutive minibatch counters starting at `c`;
collects the per-call emitted reports. -/
def runAux (L : ℕ) (name : String) :
    ObjectiveFunctionInfo → ℕ → List (ℚ × ℚ) →
    Except String (ObjectiveFunctionInfo × List (Option PhaseReport))
  | info, _, [] => .ok (info, [])
  | info, c, u :: rest =>
    match updateStats info name L c u.1 u.2 with
    | .error e => .error e
    | .ok (info', rep) =>
      match runAux L name info' (c + 1) rest with
      | .error e => .error e
      | .ok (fin, reps) => .ok (fin, rep :: reps)

/-- Sequential run from the default-constructed state with counters
0, 1, 2, …, as the single-stream trainer produces them. -/
def runSeq (L : ℕ) (name : String) (u : List (ℚ × ℚ)) :
    Except String (ObjectiveFunctionInfo × List (Option PhaseReport)) :=
  runAux L name ObjectiveFunctionInfo.init 0 u

/-- The intended aggregator state after a strictly sequential history
`hist` of (weight, objective) updates with phase length `L`: the phase is
the zero-based block index of the last counter, the running totals sum the
whole history, and the phase sub-totals sum the entries of the current
block. -/
def specState (L : ℕ) (hist : List (ℚ × ℚ)) : ObjectiveFunctionInfo :=
  { current_phase := (hist.length - 1) / L
    tot_weight := (hist.map Prod.fst).sum
    tot_objf := (hist.map Prod.snd).sum
    tot_weight_this_phase :=
      ((hist.drop ((hist.length - 1) / L * L)).map Prod.fst).sum
    tot_objf_this_phase :=
      ((hist.drop ((hist.length - 1) / L * L)).map Prod.snd).sum }

/-- The report the next sequential update emits after history `hist`:
none unless its counter (the history length) is a positive multiple of the
phase length. -/
def stepReport (L : ℕ) (name : String) (hist : List (ℚ × ℚ)) :
    Option PhaseReport :=
  if hist.length ≠ 0 ∧ L ∣ hist.length then
    some (printStatsForThisPhase (specState L hist) name L)
  else none

/-- The reports a sequential run of `u` emits, one option per update, when
it starts after history `hist`. -/
def reportsFrom (L : ℕ) (name : String) :
    List (ℚ × ℚ) → List (ℚ × ℚ) → List (Option PhaseReport)
  | _, [] => []
  | hist, x :: rest => stepReport L name hist :: reportsFrom L name (hist ++ [x]) rest

/-! Bridging lemmas between the row-list computations and index-level sums. -/

theorem list_sum_eq_range (l : List ℚ) :
    l.sum = ∑ i in Finset.range l.length, l.getD i 0 := by
  induction l with
  | nil => simp
  | cons x xs ih =>
    rw [List.sum_cons, ih, List.length_cons, Finset.sum_range_succ']
    simp [add_comm]

theorem dotRow_eq_range (a b : List ℚ) (c : ℕ) (ha : a.length = c)
    (hb : b.length = c) :
    dotRow a b = ∑ j in Finset.range c, a.getD j 0 * b.getD j 0 := by
  induction a generalizing b c with
  | nil =>
    obtain rfl : c = 0 := by simpa using ha.symm
    simp [dotRow]
  | cons x xs ih =>
    cases b with
    | nil => rw [← hb] at ha; simp at ha
    | cons y ys =>
      subst ha
      rw [dotRow, List.zipWith_cons_cons, List.sum_cons, List.length_cons,
        Finset.sum_range_succ']
      simp only [List.getD_cons_succ, List.getD_cons_zero]
      rw [← dotRow, ih ys xs.length rfl (by simpa using hb), add_comm]

theorem entry_cons_zero (row : List ℚ) (m : Mat) (j : ℕ) :
    entry (row :: m) 0 j = row.getD j 0 := rfl

theorem entry_cons_succ (row : List ℚ) (m : Mat) (i j : ℕ) :
    entry (row :: m) (i + 1) j = entry m i j := rfl

theorem traceMatMat_eq_range (c : ℕ) :
    ∀ (a b : Mat), (∀ row ∈ a, row.length = c) → (∀ row ∈ b, row.length = c) →
      a.length = b.length →
      traceMatMat a b =
        ∑ i in Finset.range a.length, ∑ j in Finset.range c,
          entry a i j * entry b i j := by
  intro a
  induction a with
  | nil => intro b _ _ _; simp [traceMatMat]
  | cons arow arest ih =>
    intro b ha hb hl
    cases b with
    | nil => simp at hl
    | cons brow brest =>
      rw [traceMatMat, List.zipWith_cons_cons, List.sum_cons, List.length_cons,
        Finset.sum_range_succ']
      simp only [entry_cons_succ, entry_cons_zero]
      rw [← traceMatMat,
        ih brest (fun row hrow => ha row (List.mem_cons_of_mem _ hrow))
          (fun row hrow => hb row (List.mem_cons_of_mem _ hrow))
          (by simpa using hl),
        dotRow_eq_range arow brow c (ha arow (List.mem_cons_self arow arest))
          (hb brow (List.mem_cons_self brow brest)), add_comm]

theorem matSum_eq_range (m : Mat) (c : ℕ) (h : ∀ row ∈ m, row.length = c) :
    matSum m =
      ∑ i in Finset.range m.length, ∑ j in Finset.range c, entry m i j := by
  induction m with
  | nil => simp [matSum]
  | cons row rest ih =>
    rw [matSum, List.map_cons, List.sum_cons, List.length_cons,
      Finset.sum_range_succ']
    simp only [entry_cons_succ, entry_cons_zero]
    rw [← matSum, ih (fun r hr => h r (List.mem_cons_of_mem _ hr)),
      list_sum_eq_range row, h row (List.mem_cons_self row rest), add_comm]

theorem length_addMat (alpha : ℚ) (a m : Mat) :
    (addMat alpha a m).length = min m.length a.length := by
  simp [addMat]

theorem zipAdd_getD (alpha : ℚ) (x y : List ℚ) (j : ℕ) (hx : j < x.length)
    (hy : j < y.length) :
    (List.zipWith (fun u v => u + alpha * v) x y).getD j 0 =
      x.getD j 0 + alpha * y.getD j 0 := by
  induction x generalizing y j with
  | nil => simp at hx
  | cons u us ih =>
    cases y with
    | nil => simp at hy
    | cons v vs =>
      cases j with
      | zero => simp
      | succ j =>
        simp only [List.zipWith_cons_cons, List.getD_cons_succ]
        exact ih vs j (by simpa using hx) (by simpa using hy)

theorem addMat_rows_length (alpha : ℚ) (c : ℕ) :
    ∀ (m a : Mat), (∀ row ∈ m, row.length = c) → (∀ row ∈ a, row.length = c) →
      ∀ row ∈ addMat alpha a m, row.length = c := by
  intro m
  induction m with
  | nil => intro a _ _ row hrow; simp [addMat] at hrow
  | cons mrow mrest ih =>
    intro a hm ha row hrow
    cases a with
    | nil => simp [addMat] at hrow
    | cons arow arest =>
      rw [addMat, List.zipWith_cons_cons, List.mem_cons] at hrow
      rcases hrow with rfl | hrow
      · rw [List.length_zipWith, hm mrow (List.mem_cons_self mrow mrest),
          ha arow (List.mem_cons_self arow arest), min_self]
      · exact ih arest (fun r hr => hm r (List.mem_cons_of_mem _ hr))
          (fun r hr => ha r (List.mem_cons_of_mem _ hr)) row hrow

theorem addMat_rect (alpha : ℚ) (a m : Mat) (r c : ℕ) (ha : Rect a r c)
    (hm : Rect m r c) : Rect (addMat alpha a m) r c :=
  ⟨by simp [length_addMat, ha.1, hm.1], addMat_rows_length alpha c m a hm.2 ha.2⟩

theorem entry_addMat (alpha : ℚ) (c : ℕ) :
    ∀ (m a : Mat) (i j : ℕ), (∀ row ∈ m, row.length = c) →
      (∀ row ∈ a, row.length = c) → i < m.length → i < a.length → j < c →
      entry (addMat alpha a m) i j = entry m i j + alpha * entry a i j := by
  intro m
  induction m with
  | nil => intro a i j _ _ hi _ _; simp at hi
  | cons mrow mrest ih =>
    intro a i j hm ha hi hia hj
    cases a with
    | nil => simp at hia
    | cons arow arest =>
      rw [addMat, List.zipWith_cons_cons]
      cases i with
      | zero =>
        rw [entry_cons_zero, entry_cons_zero, entry_cons_zero]
        exact zipAdd_getD alpha mrow arow j
          (by rw [hm mrow (List.mem_cons_self mrow mrest)]; exact hj)
          (by rw [ha arow (List.mem_cons_self arow arest)]; exact hj)
      | succ i =>
        rw [entry_cons_succ, entry_cons_succ, entry_cons_succ, ← addMat]
        exact ih arest i j (fun r hr => hm r (List.mem_cons_of_mem _ hr))
          (fun r hr => ha r (List.mem_cons_of_mem _ hr))
          (by simpa using hi) (by simpa using hia) hj

/-! Lemmas relating the sparse encoding's computations to its dense decode. -/

theorem length_addAt : ∀ (row : List ℚ) (c : ℕ) (v : ℚ),
    (addAt row c v).length = row.length
  | [], _, _ => rfl
  | _ :: xs, 0, _ => by simp [addAt]
  | x :: xs, n + 1, v => by simp [addAt, length_addAt xs n v]

theorem sum_addAt : ∀ (row : List ℚ) (c : ℕ) (v : ℚ), c < row.length →
    (addAt row c v).sum = row.sum + v := by
  intro row
  induction row with
  | nil => intro c v h; simp at h
  | cons x xs ih =>
    intro c v h
    cases c with
    | zero => simp [addAt]; ring
    | succ c =>
      rw [addAt, List.sum_cons, List.sum_cons, ih c v (by simpa using h)]
      ring

theorem dotRow_nil_left (b : List ℚ) : dotRow [] b = 0 := by simp [dotRow]

theorem dotRow_nil_right (a : List ℚ) : dotRow a [] = 0 := by simp [dotRow]

theorem dotRow_cons (x y : ℚ) (xs ys : List ℚ) :
    dotRow (x :: xs) (y :: ys) = x * y + dotRow xs ys := by
  simp [dotRow]

theorem decodeRow_cons (w : ℕ) (p : ℕ × ℚ) (rest : SRow) :
    decodeRow w (p :: rest) = addAt (decodeRow w rest) p.1 p.2 := rfl

theorem sRowSum_cons (p : ℕ × ℚ) (rest : SRow) :
    sRowSum (p :: rest) = p.2 + sRowSum rest := by
  simp [sRowSum]

theorem sRowDot_cons (a : List ℚ) (p : ℕ × ℚ) (rest : SRow) :
    sRowDot a (p :: rest) = a.getD p.1 0 * p.2 + sRowDot a rest := by
  simp [sRowDot]

theorem dotRow_addAt : ∀ (row : List ℚ) (a : List ℚ) (c : ℕ) (v : ℚ),
    c < row.length →
    dotRow a (addAt row c v) = dotRow a row + a.getD c 0 * v := by
  intro row
  induction row with
  | nil => intro a c v h; simp at h
  | cons r rs ih =>
    intro a c v h
    cases c with
    | zero =>
      cases a with
      | nil => simp [addAt, dotRow_nil_left]
      | cons x xs => rw [addAt, dotRow_cons, dotRow_cons]; simp; ring
    | succ c =>
      cases a with
      | nil => simp [addAt, dotRow_nil_left]
      | cons x xs =>
        rw [addAt, dotRow_cons, dotRow_cons,
          ih xs c v (by simpa using h), List.getD_cons_succ]
        ring

theorem length_decodeRow (w : ℕ) : ∀ (s : SRow), (decodeRow w s).length = w
  | [] => by simp [decodeRow]
  | p :: rest => by
    rw [decodeRow_cons, length_addAt, length_decodeRow w rest]

theorem sum_decodeRow (w : ℕ) : ∀ (s : SRow), (∀ p ∈ s, p.1 < w) →
    (decodeRow w s).sum = sRowSum s := by
  intro s
  induction s with
  | nil => intro _; simp [decodeRow, sRowSum]
  | cons p rest ih =>
    intro h
    rw [decodeRow_cons,
      sum_addAt _ _ _
        (by rw [length_decodeRow]; exact h p (List.mem_cons_self p rest)),
      ih (fun q hq => h q (List.mem_cons_of_mem _ hq)), sRowSum_cons]
    ring

theorem dotRow_replicate_zero : ∀ (a : List ℚ) (w : ℕ),
    dotRow a (List.replicate w 0) = 0
  | [], _ => dotRow_nil_left _
  | x :: xs, 0 => dotRow_nil_right _
  | x :: xs, w + 1 => by
    rw [List.replicate_succ, dotRow_cons, dotRow_replicate_zero xs w]
    ring

theorem dotRow_decodeRow (w : ℕ) : ∀ (s : SRow) (a : List ℚ),
    (∀ p ∈ s, p.1 < w) → dotRow a (decodeRow w s) = sRowDot a s := by
  intro s
  induction s with
  | nil => intro a _; simp [decodeRow, sRowDot, dotRow_replicate_zero]
  | cons p rest ih =>
    intro a h
    rw [decodeRow_cons,
      dotRow_addAt _ _ _ _
        (by rw [length_decodeRow]; exact h p (List.mem_cons_self p rest)),
      ih a (fun q hq => h q (List.mem_cons_of_mem _ hq)), sRowDot_cons]
    ring

/-- Validity of a sparse matrix: every stored column index is within the
declared column dimension. -/
def SValid (w : ℕ) (s : SMat) : Prop := ∀ row ∈ s, ∀ p ∈ row, p.1 < w

theorem decodeSMat_rect (w : ℕ) (s : SMat) : Rect (decodeSMat w s) s.length w := by
  constructor
  · simp [decodeSMat]
  · intro row hrow
    rw [decodeSMat] at hrow
    obtain ⟨srow, _, rfl⟩ := List.mem_map.mp hrow
    exact length_decodeRow w srow

theorem decodeSMat_cons (w : ℕ) (row : SRow) (rest : SMat) :
    decodeSMat w (row :: rest) = decodeRow w row :: decodeSMat w rest := rfl

theorem matSum_cons (row : List ℚ) (rest : Mat) :
    matSum (row :: rest) = row.sum + matSum rest := by
  simp [matSum]

theorem sMatSum_cons (row : SRow) (rest : SMat) :
    sMatSum (row :: rest) = sRowSum row + sMatSum rest := by
  simp [sMatSum]

theorem traceMatMat_cons (arow brow : List ℚ) (arest brest : Mat) :
    traceMatMat (arow :: arest) (brow :: brest) =
      dotRow arow brow + traceMatMat arest brest := by
  simp [traceMatMat]

theorem traceMatSmat_cons (arow : List ℚ) (srow : SRow) (arest : Mat)
    (srest : SMat) :
    traceMatSmat (arow :: arest) (srow :: srest) =
      sRowDot arow srow + traceMatSmat arest srest := by
  simp [traceMatSmat]

theorem sMatSum_decode (w : ℕ) : ∀ (s : SMat), SValid w s →
    sMatSum s = matSum (decodeSMat w s) := by
  intro s
  induction s with
  | nil => intro _; simp [sMatSum, matSum, decodeSMat]
  | cons row rest ih =>
    intro h
    rw [sMatSum_cons, decodeSMat_cons, matSum_cons,
      ih (fun r hr => h r (List.mem_cons_of_mem _ hr)),
      sum_decodeRow w row (h row (List.mem_cons_self row rest))]

theorem traceMatSmat_decode (w : ℕ) : ∀ (s : SMat) (a : Mat), SValid w s →
    traceMatSmat a s = traceMatMat a (decodeSMat w s) := by
  intro s
  induction s with
  | nil =>
    intro a _
    simp [traceMatSmat, traceMatMat, decodeSMat]
  | cons srow rest ih =>
    intro a h
    cases a with
    | nil => simp [traceMatSmat, traceMatMat, decodeSMat]
    | cons arow arest =>
      rw [decodeSMat_cons, traceMatSmat_cons, traceMatMat_cons,
        ih arest (fun r hr => h r (List.mem_cons_of_mem _ hr)),
        dotRow_decodeRow w srow arow (h srow (List.mem_cons_self srow rest))]

/-! Invariant of the aggregator under strictly sequential counters. -/

theorem specState_nil (L : ℕ) : specState L [] = ObjectiveFunctionInfo.init := by
  simp [specState, ObjectiveFunctionInfo.init]

theorem updateStats_specState (L : ℕ) (hL : 0 < L) (name : String)
    (hist : List (ℚ × ℚ)) (w o : ℚ) :
    updateStats (specState L hist) name L hist.length w o =
      .ok (specState L (hist ++ [(w, o)]), stepReport L name hist) := by
  cases hlen : hist.length with
  | zero =>
    obtain rfl : hist = [] := List.length_eq_zero.mp hlen
    simp [updateStats, accumStats, specState, stepReport, Nat.zero_div]
  | succ m =>
    by_cases hd : L ∣ (m + 1)
    · have hphase : (m + 1) / L = m / L + 1 := Nat.succ_div_of_dvd hd
      have hne : (m + 1) / L ≠ (hist.length - 1) / L := by
        rw [hlen, hphase]; simp
      rw [updateStats]
      simp only [specState, hlen, hphase, Nat.add_sub_cancel]
      rw [if_neg (by simpa using hne), if_pos trivial]
      have hrep : stepReport L name hist =
          some (printStatsForThisPhase (specState L hist) name L) := by
        rw [stepReport, if_pos ⟨by rw [hlen]; simp, by rw [hlen]; exact hd⟩]
      rw [hrep]
      simp only [specState, hlen, Nat.add_sub_cancel, printStatsForThisPhase]
      congr 1
      congr 1
      have hdrop : (m / L + 1) * L = hist.length := by
        rw [hlen, ← hphase, Nat.div_mul_cancel hd]
      rw [accumStats]
      simp only [List.length_append, List.map_append, List.sum_append, hlen,
        List.length_singleton]
      have : (m + 1 + 1 - 1) / L = m / L + 1 := by
        rw [Nat.add_sub_cancel, hphase]
      rw [this, hdrop, List.drop_left' rfl]
      simp
    · have hphase : (m + 1) / L = m / L := Nat.succ_div_of_not_dvd hd
      rw [updateStats]
      simp only [specState, hlen, Nat.add_sub_cancel]
      rw [if_pos (by rw [hphase])]
      have hrep : stepReport L name hist = none := by
        rw [stepReport, if_neg (by rw [hlen]; rintro ⟨-, h⟩; exact hd h)]
      rw [hrep]
      congr 1
      congr 1
      rw [accumStats]
      simp only [specState, List.length_append, List.map_append,
        List.sum_append, hlen, List.length_singleton]
      have hcp : (m + 1 + 1 - 1) / L = m / L := by
        rw [Nat.add_sub_cancel, hphase]
      have hle : m / L * L ≤ hist.length := by
        rw [hlen]
        exact le_trans (Nat.div_mul_le_self m L) (Nat.le_succ m)
      rw [hcp, List.drop_append_of_le_length hle]
      simp

theorem runAux_specState (L : ℕ) (hL : 0 < L) (name : String) :
    ∀ (u hist : List (ℚ × ℚ)),
      runAux L name (specState L hist) hist.length u =
        .ok (specState L (hist ++ u), reportsFrom L name hist u) := by
  intro u
  induction u with
  | nil => intro hist; simp [runAux, reportsFrom]
  | cons x rest ih =>
    intro hist
    have ihx : runAux L name (specState L (hist ++ [x])) (hist.length + 1) rest =
        .ok (specState L ((hist ++ [x]) ++ rest),
             reportsFrom L name (hist ++ [x]) rest) := by
      have h2 := ih (hist ++ [x])
      rw [List.length_append] at h2
      simpa using h2
    rw [runAux, updateStats_specState L hL name hist x.1 x.2]
    simp [ihx, reportsFrom]

theorem runSeq_specState (L : ℕ) (hL : 0 < L) (name : String)
    (u : List (ℚ × ℚ)) :
    runSeq L name u = .ok (specState L u, reportsFrom L name [] u) := by
  have h := runAux_specState L hL name u []
  rw [List.length_nil, specState_nil, List.nil_append] at h
  exact h

theorem reportsFrom_length (L : ℕ) (name : String) :
    ∀ (u hist : List (ℚ × ℚ)),
      (reportsFrom L name hist u).length = u.length := by
  intro u
  induction u with
  | nil => intro hist; simp [reportsFrom]
  | cons x rest ih => intro hist; simp [reportsFrom, ih]

theorem reportsFrom_getD (L : ℕ) (name : String) :
    ∀ (u hist : List (ℚ × ℚ)) (k : ℕ), k < u.length →
      (reportsFrom L name hist u).getD k none =
        stepReport L name (hist ++ u.take k) := by
  intro u
  induction u with
  | nil => intro hist k h; simp at h
  | cons x rest ih =>
    intro hist k h
    cases k with
    | zero => simp [reportsFrom]
    | succ k =>
      rw [reportsFrom, List.getD_cons_succ, ih (hist ++ [x]) k (by simpa using h),
        List.take_cons (Nat.succ_pos k)]
      simp

theorem boundary_pred_div (L p : ℕ) (hL : 0 < L) : ((p + 1) * L - 1) / L = p := by
  have h1 : (p + 1) * L = L * p + L := by ring
  have h2 : (p + 1) * L - 1 = L * p + (L - 1) := by
    rw [h1, Nat.add_sub_assoc hL]
  rw [h2, Nat.mul_add_div hL, Nat.div_eq_of_lt (Nat.sub_lt hL Nat.one_pos),
    Nat.add_zero]

theorem boundary_div (L p : ℕ) (hL : 0 < L) : (p + 1) * L / L = p + 1 :=
  Nat.mul_div_cancel (p + 1) hL

/-! Lemmas on the trainer-level loops. -/

theorem trainer_fold_fst :
    ∀ (m : List (String × ObjectiveFunctionInfo)) (ans : Bool)
      (lines : List SummaryLine),
      (m.foldl
        (fun acc p =>
          if acc.1 then acc
          else
            let r := infoPrintTotalStats p.2 p.1
            (r.2, acc.2 ++ [r.1]))
        (ans, lines)).1 =
        (ans || m.any (fun p => decide (p.2.tot_weight ≠ 0))) := by
  intro m
  induction m with
  | nil => intro ans lines; simp
  | cons p rest ih =>
    intro ans lines
    cases ans with
    | true => rw [List.foldl_cons, if_pos rfl, ih]; simp
    | false =>
      rw [List.foldl_cons, if_neg (by simp), ih]
      simp [infoPrintTotalStats]

theorem processOutputs_counter (nnet : List (String × Node))
    (print_interval : ℕ) (computer : List (String × Mat)) :
    ∀ (eg : List NnetIo) (st st' : TrainerState)
      (reps : List (Option PhaseReport)),
      ProcessOutputs nnet print_interval computer eg st = .ok (st', reps) →
      st'.num_minibatches_processed =
        st.num_minibatches_processed + countOutputStreams nnet eg := by
  intro eg
  induction eg with
  | nil =>
    intro st st' reps h
    rw [ProcessOutputs] at h
    cases h
    simp [countOutputStreams]
  | cons io rest ih =>
    intro st st' reps h
    rw [ProcessOutputs] at h
    cases hnode : lookupA nnet io.name with
    | none => simp only [hnode] at h; cases h
    | some node =>
      simp only [hnode] at h
      cases hout : node.is_output with
      | false =>
        simp only [hout, Bool.false_eq_true, if_false] at h
        rw [ih st st' reps h]
        simp [countOutputStreams, List.filter_cons, hnode, hout]
      | true =>
        simp only [hout, if_true] at h
        cases hcomp : lookupA computer io.name with
        | none => simp only [hcomp] at h; cases h
        | some out =>
          simp only [hcomp] at h
          cases hobj : ComputeObjectiveFunction io.features
              node.objective_type io.name true out with
          | error e => simp only [hobj] at h; cases h
          | ok r =>
            simp only [hobj] at h
            cases hup : updateStats
                ((lookupA st.objf_info io.name).getD ObjectiveFunctionInfo.init)
                io.name print_interval st.num_minibatches_processed
                r.tot_weight r.tot_objf with
            | error e => simp only [hup] at h; cases h
            | ok pr =>
              obtain ⟨info', rep⟩ := pr
              simp only [hup] at h
              cases hrec : ProcessOutputs nnet print_interval computer rest
                  { num_minibatches_processed :=
                      st.num_minibatches_processed + 1
                    objf_info := mapSet st.objf_info io.name info' } with
              | error e => simp only [hrec] at h; cases h
              | ok q =>
                simp only [hrec] at h
                cases h
                have h2 := ih _ q.1 q.2 (by rw [hrec])
                simp only [countOutputStreams, List.filter_cons] at h2 ⊢
                simp [hnode, hout] at h2 ⊢
                omega

/-! Claim theorems. -/

/-- C1 counterexample: with activation [[1]] and supervision [[0]], the
quadratic branch supplies the gradient [[-1]], while the difference
activation − supervision claimed as the gradient is [[1]] — so the claim's
gradient direction is refuted at this input (the code's diff is
supervision − activation). -/
theorem C1_counterexample :
    ComputeObjectiveFunction (.fullMatrix [[0]]) .kQuadratic "output" true [[1]] =
      .ok { tot_weight := 1, tot_objf := -(1/2), deriv := some [[-1]] } ∧
    entry [[(1 : ℚ)]] 0 0 - entry [[(0 : ℚ)]] 0 0 = 1 ∧
    ([[(-1 : ℚ)]] : Mat) ≠ [[(1 : ℚ)]] := by
  refine ⟨?_, by norm_num [entry], by norm_num⟩
  norm_num [ComputeObjectiveFunction, matNumCols, GeneralMatrix.NumCols,
    GeneralMatrix.NumRows, GeneralMatrix.toFullMatrix, addMat, traceMatMat,
    dotRow, matSum, matNumRows]

/-- C1 amended: for the quadratic objective the supplied gradient is the
element-wise difference supervision − activation (the derivative of the
objective with respect to the activation), the objective equals
−0.5 × the sum of the squared differences, and the weight equals the number
of rows. -/
theorem C1_quadratic_objective (g : GeneralMatrix) (act : Mat) (name : String)
    (r c : ℕ) (hact : Rect act r c) (hsup : Rect g.toFullMatrix r c)
    (hrows : g.NumRows = r) (hcols : g.NumCols = c) (hoc : matNumCols act = c) :
    ∃ d : Mat,
      ComputeObjectiveFunction g .kQuadratic name true act =
        .ok { tot_weight := (r : ℚ)
              tot_objf := -(1/2) *
                ∑ i in Finset.range r, ∑ j in Finset.range c,
                  (entry g.toFullMatrix i j - entry act i j) *
                  (entry g.toFullMatrix i j - entry act i j)
              deriv := some d } ∧
      Rect d r c ∧
      ∀ i, i < r → ∀ j, j < c →
        entry d i j = entry g.toFullMatrix i j - entry act i j := by
  have hg : ¬ (matNumCols act ≠ g.NumCols) := by
    rw [hoc, hcols]; simp
  have hdr : Rect (addMat (-1) act g.toFullMatrix) r c :=
    addMat_rect (-1) act g.toFullMatrix r c hact hsup
  have hentry : ∀ i, i < r → ∀ j, j < c →
      entry (addMat (-1) act g.toFullMatrix) i j =
        entry g.toFullMatrix i j - entry act i j := by
    intro i hi j hj
    rw [entry_addMat (-1) c g.toFullMatrix act i j hsup.2 hact.2
      (by rw [hsup.1]; exact hi) (by rw [hact.1]; exact hi) hj]
    ring
  refine ⟨addMat (-1) act g.toFullMatrix, ?_, hdr, hentry⟩
  simp only [ComputeObjectiveFunction, if_neg hg]
  simp only [Except.ok.injEq, ObjResult.mk.injEq]
  refine ⟨by rw [hrows], ?_, rfl⟩
  rw [traceMatMat_eq_range c _ _ hdr.2 hdr.2 rfl, hdr.1]
  congr 1
  refine Finset.sum_congr rfl ?_
  intro i hi
  refine Finset.sum_congr rfl ?_
  intro j hj
  rw [hentry i (Finset.mem_range.mp hi) j (Finset.mem_range.mp hj)]

/-- C1 witness: the amended quadratic theorem applied at a concrete 2×2
activation/supervision pair. -/
theorem C1_witness :
    ∃ d : Mat,
      ComputeObjectiveFunction (.fullMatrix [[1, 2], [3, 4]]) .kQuadratic
          "output" true [[0, 1], [1, 1]] =
        .ok { tot_weight := ((2 : ℕ) : ℚ)
              tot_objf := -(1/2) *
                ∑ i in Finset.range 2, ∑ j in Finset.range 2,
                  (entry (GeneralMatrix.fullMatrix
                      [[1, 2], [3, 4]]).toFullMatrix i j -
                    entry [[0, 1], [1, 1]] i j) *
                  (entry (GeneralMatrix.fullMatrix
                      [[1, 2], [3, 4]]).toFullMatrix i j -
                    entry [[0, 1], [1, 1]] i j)
              deriv := some d } ∧
      Rect d 2 2 ∧
      ∀ i, i < 2 → ∀ j, j < 2 →
        entry d i j =
          entry (GeneralMatrix.fullMatrix [[1, 2], [3, 4]]).toFullMatrix i j -
            entry [[0, 1], [1, 1]] i j :=
  C1_quadratic_objective (.fullMatrix [[1, 2], [3, 4]]) [[0, 1], [1, 1]]
    "output" 2 2 (by constructor <;> simp [GeneralMatrix.toFullMatrix])
    (by constructor <;> simp [GeneralMatrix.toFullMatrix])
    (by simp [GeneralMatrix.NumRows, matNumRows])
    (by simp [GeneralMatrix.NumCols, matNumCols])
    (by simp [matNumCols])

/-- Validity of a supervision matrix: for the sparse encoding all stored
column indices are within the declared column dimension; the dense
encodings carry no side condition. -/
def GMValid : GeneralMatrix → Prop
  | .sparseMatrix n s => SValid n s
  | .fullMatrix _ => True
  | .compressedMatrix _ => True

/-- C4: for the linear objective the returned objective is the sum of the
element-wise product of activation and (decoded) supervision, the weight is
the sum of all supervision entries, and the gradient, when requested, is the
decoded supervision matrix itself. -/
theorem C4_linear_objective (g : GeneralMatrix) (act : Mat) (name : String)
    (sd : Bool) (r c : ℕ) (hv : GMValid g) (hact : Rect act r c)
    (hsup : Rect g.toFullMatrix r c) (hrows : g.NumRows = r)
    (hcols : g.NumCols = c) (hoc : matNumCols act = c) :
    ComputeObjectiveFunction g .kLinear name sd act =
      .ok { tot_weight :=
              ∑ i in Finset.range r, ∑ j in Finset.range c,
                entry g.toFullMatrix i j
            tot_objf :=
              ∑ i in Finset.range r, ∑ j in Finset.range c,
                entry act i j * entry g.toFullMatrix i j
            deriv := if sd then some g.toFullMatrix else none } := by
  have hg : ¬ (matNumCols act ≠ g.NumCols) := by
    rw [hoc, hcols]; simp
  cases g with
  | fullMatrix m =>
    simp only [GeneralMatrix.toFullMatrix] at hsup ⊢
    simp only [ComputeObjectiveFunction, if_neg hg]
    simp only [Except.ok.injEq, ObjResult.mk.injEq]
    refine ⟨?_, ?_, by simp⟩
    · rw [matSum_eq_range m c hsup.2, hsup.1]
    · rw [traceMatMat_eq_range c act m hact.2 hsup.2
        (by rw [hact.1, ← hsup.1]), hact.1]
  | compressedMatrix m =>
    simp only [GeneralMatrix.toFullMatrix] at hsup ⊢
    simp only [ComputeObjectiveFunction, if_neg hg]
    simp only [Except.ok.injEq, ObjResult.mk.injEq]
    refine ⟨?_, ?_, by simp⟩
    · rw [matSum_eq_range m c hsup.2, hsup.1]
    · rw [traceMatMat_eq_range c act m hact.2 hsup.2
        (by rw [hact.1, ← hsup.1]), hact.1]
  | sparseMatrix n s =>
    have hn : n = c := hcols
    subst hn
    have hvs : SValid n s := hv
    simp only [GeneralMatrix.toFullMatrix] at hsup ⊢
    simp only [ComputeObjectiveFunction, if_neg hg]
    simp only [Except.ok.injEq, ObjResult.mk.injEq]
    refine ⟨?_, ?_, ?_⟩
    · rw [sMatSum_decode n s hvs, matSum_eq_range (decodeSMat n s) n hsup.2,
        hsup.1]
    · rw [traceMatSmat_decode n s act hvs,
        traceMatMat_eq_range n act (decodeSMat n s) hact.2 hsup.2
          (by rw [hact.1, ← hsup.1]), hact.1]
    · rw [hoc]

/-- C4 witness: the linear theorem applied to a concrete sparse supervision
matrix. -/
theorem C4_witness :
    ComputeObjectiveFunction (.sparseMatrix 2 [[(0, 3)], [(1, 4)]]) .kLinear
        "output" true [[1, 2], [5, 6]] =
      .ok { tot_weight :=
              ∑ i in Finset.range 2, ∑ j in Finset.range 2,
                entry (GeneralMatrix.sparseMatrix 2
                  [[(0, 3)], [(1, 4)]]).toFullMatrix i j
            tot_objf :=
              ∑ i in Finset.range 2, ∑ j in Finset.range 2,
                entry [[1, 2], [5, 6]] i j *
                  entry (GeneralMatrix.sparseMatrix 2
                    [[(0, 3)], [(1, 4)]]).toFullMatrix i j
            deriv := if true then some (GeneralMatrix.sparseMatrix 2
                [[(0, 3)], [(1, 4)]]).toFullMatrix else none } :=
  C4_linear_objective (.sparseMatrix 2 [[(0, 3)], [(1, 4)]]) [[1, 2], [5, 6]]
    "output" true 2 2 (by simp only [GMValid, SValid]; decide)
    (by constructor <;> simp)
    (by constructor <;>
      simp [GeneralMatrix.toFullMatrix, decodeSMat, length_decodeRow])
    (by simp [GeneralMatrix.NumRows]) rfl (by simp [matNumCols])

/-- C5: the three supervision encodings of the same logical matrix produce
identical results from the linear branch of ComputeObjectiveFunction — the
sparse encoding agrees with its dense decode, and the compressed encoding
agrees with the dense encoding, for every activation, output name and
supply_deriv flag. -/
theorem C5_encoding_invariance (n : ℕ) (s : SMat) (act : Mat) (name : String)
    (sd : Bool) (hv : SValid n s) (hne : s ≠ []) :
    ComputeObjectiveFunction (.sparseMatrix n s) .kLinear name sd act =
      ComputeObjectiveFunction (.fullMatrix (decodeSMat n s)) .kLinear name sd act ∧
    ComputeObjectiveFunction (.compressedMatrix (decodeSMat n s)) .kLinear name sd act =
      ComputeObjectiveFunction (.fullMatrix (decodeSMat n s)) .kLinear name sd act := by
  have hw : matNumCols (decodeSMat n s) = n := by
    cases s with
    | nil => exact absurd rfl hne
    | cons row rest =>
      rw [decodeSMat_cons, matNumCols]
      simp [length_decodeRow]
  constructor
  · by_cases hg : matNumCols act ≠ n
    · simp only [ComputeObjectiveFunction, GeneralMatrix.NumCols, hw,
        if_pos hg]
    · push_neg at hg
      simp only [ComputeObjectiveFunction, GeneralMatrix.NumCols, hw,
        if_neg (by rw [hg]; simp : ¬ (matNumCols act ≠ n))]
      simp only [Except.ok.injEq, ObjResult.mk.injEq]
      exact ⟨sMatSum_decode n s hv, traceMatSmat_decode n s act hv,
        by rw [hg]⟩
  · simp only [ComputeObjectiveFunction, GeneralMatrix.NumCols]

/-- C5 witness: encoding invariance at a concrete sparse matrix and
activation. -/
theorem C5_witness :
    ComputeObjectiveFunction (.sparseMatrix 2 [[(0, 3)], [(1, 4)]]) .kLinear
        "output" true [[1, 2], [5, 6]] =
      ComputeObjectiveFunction
        (.fullMatrix (decodeSMat 2 [[(0, 3)], [(1, 4)]])) .kLinear
        "output" true [[1, 2], [5, 6]] ∧
    ComputeObjectiveFunction
        (.compressedMatrix (decodeSMat 2 [[(0, 3)], [(1, 4)]])) .kLinear
        "output" true [[1, 2], [5, 6]] =
      ComputeObjectiveFunction
        (.fullMatrix (decodeSMat 2 [[(0, 3)], [(1, 4)]])) .kLinear
        "output" true [[1, 2], [5, 6]] :=
  C5_encoding_invariance 2 [[(0, 3)], [(1, 4)]] [[1, 2], [5, 6]] "output" true
    (by simp only [SValid]; decide)
    (by decide)

/-- C8: ComputeObjectiveFunction fails exactly when the activation's column
count differs from the supervision's column count (so in particular
mismatched row counts are never rejected by it), and the error it then
produces is the dimension-mismatch message, whose text contains the output
name and both dimension values. -/
theorem C8_column_check (g : GeneralMatrix) (act : Mat) (name : String)
    (sd : Bool) (ot : ObjectiveType) :
    ((∃ e, ComputeObjectiveFunction g ot name sd act = .error e) ↔
      matNumCols act ≠ g.NumCols) ∧
    (matNumCols act ≠ g.NumCols →
      ComputeObjectiveFunction g ot name sd act =
        .error (dimMismatchMsg name (matNumCols act) g.NumCols)) ∧
    (∃ s1 s2 s3 s4 : String,
      dimMismatchMsg name (matNumCols act) g.NumCols =
        s1 ++ name ++ s2 ++ toString (matNumCols act) ++ s3 ++
          toString g.NumCols ++ s4) := by
  refine ⟨⟨?_, ?_⟩, ?_, ?_⟩
  · intro ⟨e, he⟩
    by_contra hg
    rw [ComputeObjectiveFunction.eq_def, if_neg (fun hne => hne hg)] at he
    cases ot with
    | kLinear => cases g <;> simp at he
    | kQuadratic => simp at he
  · intro hg
    exact ⟨_, by rw [ComputeObjectiveFunction.eq_def, if_pos hg]⟩
  · intro hg
    rw [ComputeObjectiveFunction.eq_def, if_pos hg]
  · exact ⟨"Nnet versus example output dimension (num-classes) mismatch for '",
      "': ", " (nnet) vs. ", " (egs)\n", rfl⟩

/-- C8 witness: at a 1-column activation against a 2-column supervision the
function fails with the dimension message, and row counts are not checked:
a 1-row activation against a 3-row supervision with equal column counts
succeeds (instantiating the only-if direction of the characterization). -/
theorem C8_witness :
    (((∃ e, ComputeObjectiveFunction (.fullMatrix [[1, 2]]) .kLinear
        "output" true [[3]] = .error e) ↔
      matNumCols [[(3 : ℚ)]] ≠ (GeneralMatrix.fullMatrix [[1, 2]]).NumCols) ∧
     (matNumCols [[(3 : ℚ)]] ≠ (GeneralMatrix.fullMatrix [[1, 2]]).NumCols →
      ComputeObjectiveFunction (.fullMatrix [[1, 2]]) .kLinear "output" true
          [[3]] =
        .error (dimMismatchMsg "output" (matNumCols [[(3 : ℚ)]])
          (GeneralMatrix.fullMatrix [[1, 2]]).NumCols)) ∧
     (∃ s1 s2 s3 s4 : String,
      dimMismatchMsg "output" (matNumCols [[(3 : ℚ)]])
          (GeneralMatrix.fullMatrix [[1, 2]]).NumCols =
        s1 ++ "output" ++ s2 ++ toString (matNumCols [[(3 : ℚ)]]) ++ s3 ++
          toString (GeneralMatrix.fullMatrix [[1, 2]]).NumCols ++ s4)) ∧
    ¬ (∃ e, ComputeObjectiveFunction (.fullMatrix [[1], [2], [3]]) .kLinear
        "output" true [[5]] = .error e) :=
  ⟨C8_column_check (.fullMatrix [[1, 2]]) [[3]] "output" true .kLinear,
   fun h =>
     absurd ((C8_column_check (.fullMatrix [[1], [2], [3]]) [[5]] "output"
       true .kLinear).1.mp h) (by decide)⟩

/-- C2: the end-of-training report loop computes
ans = ans OR PrintTotalStats(name) with the short-circuiting built-in OR,
so once one stream has returned true the remaining streams' PrintTotalStats
calls are skipped: with two streams of nonzero weight only one summary line
is emitted, not one per map entry. -/
theorem C2_short_circuit :
    trainerPrintTotalStats
        [("a", ⟨0, 1, 2, 1, 2⟩), ("b", ⟨0, 1, 2, 1, 2⟩)] =
      (true, [{ output_name := "a", average := 2, weight := 1 }]) ∧
    (trainerPrintTotalStats
        [("a", ⟨0, 1, 2, 1, 2⟩), ("b", ⟨0, 1, 2, 1, 2⟩)]).2.length ≠
      [("a", (⟨0, 1, 2, 1, 2⟩ : ObjectiveFunctionInfo)),
       ("b", ⟨0, 1, 2, 1, 2⟩)].length := by
  constructor
  · norm_num [trainerPrintTotalStats, infoPrintTotalStats]
  · norm_num [trainerPrintTotalStats, infoPrintTotalStats]

/-- C9: the per-stream summary reports average = running objective /
running weight and returns true exactly when the running weight is nonzero,
and the trainer-level report returns true exactly when some stream in the
map has nonzero running weight. -/
theorem C9_final_report :
    (∀ (info : ObjectiveFunctionInfo) (name : String),
      (infoPrintTotalStats info name).1.average =
          info.tot_objf / info.tot_weight ∧
      (infoPrintTotalStats info name).1.weight = info.tot_weight ∧
      ((infoPrintTotalStats info name).2 = true ↔ info.tot_weight ≠ 0)) ∧
    (∀ m : List (String × ObjectiveFunctionInfo),
      ((trainerPrintTotalStats m).1 = true ↔
        ∃ p ∈ m, p.2.tot_weight ≠ 0)) := by
  constructor
  · intro info name
    refine ⟨rfl, rfl, ?_⟩
    simp [infoPrintTotalStats]
  · intro m
    rw [trainerPrintTotalStats, trainer_fold_fst m false []]
    simp

/-- Whether an embedded fatal abort occurred. -/
def exceptIsError {α : Type} : Except String α → Bool
  | .error _ => true
  | .ok _ => false

theorem updateStats_isError_iff (info : ObjectiveFunctionInfo) (name : String)
    (L c : ℕ) (w o : ℚ) :
    exceptIsError (updateStats info name L c w o) = true ↔
      (c / L ≠ info.current_phase ∧ c / L ≠ info.current_phase + 1) := by
  rw [updateStats]
  by_cases h0 : c / L = info.current_phase
  · simp [h0, exceptIsError]
  · by_cases h1 : c / L = info.current_phase + 1
    · simp [h0, h1, exceptIsError]
    · simp [h0, h1, exceptIsError]

theorem updateStats_error_eq (info : ObjectiveFunctionInfo) (name : String)
    (L c : ℕ) (w o : ℚ)
    (h : c / L ≠ info.current_phase ∧ c / L ≠ info.current_phase + 1) :
    updateStats info name L c w o = .error phaseAssertMsg := by
  rw [updateStats, if_neg h.1, if_neg h.2]

/-- C7: UpdateStats aborts on the phase-consistency assert exactly when the
computed phase differs from the current phase by something other than 0 or
+1, and in that case the call produces the bare assert failure — no new
state and no report. -/
theorem C7_phase_assert (info : ObjectiveFunctionInfo) (name : String)
    (L c : ℕ) (w o : ℚ) (hL : 0 < L) :
    (exceptIsError (updateStats info name L c w o) = true ↔
      (c / L ≠ info.current_phase ∧ c / L ≠ info.current_phase + 1)) ∧
    ((c / L ≠ info.current_phase ∧ c / L ≠ info.current_phase + 1) →
      updateStats info name L c w o = .error phaseAssertMsg) :=
  ⟨updateStats_isError_iff info name L c w o,
   updateStats_error_eq info name L c w o⟩

/-- C7 witness: at phase length 10 and counter 20 against a fresh stream
state (current phase 0), the computed phase 2 triggers the assert. -/
theorem C7_witness :
    (exceptIsError (updateStats ObjectiveFunctionInfo.init "output" 10 20 1 1)
        = true ↔
      (20 / 10 ≠ ObjectiveFunctionInfo.init.current_phase ∧
       20 / 10 ≠ ObjectiveFunctionInfo.init.current_phase + 1)) ∧
    ((20 / 10 ≠ ObjectiveFunctionInfo.init.current_phase ∧
      20 / 10 ≠ ObjectiveFunctionInfo.init.current_phase + 1) →
      updateStats ObjectiveFunctionInfo.init "output" 10 20 1 1 =
        .error phaseAssertMsg) :=
  C7_phase_assert ObjectiveFunctionInfo.init "output" 10 20 1 1 (by decide)

/-- C10: starting from the lazily default-constructed per-stream state
(current phase 0), the very first UpdateStats call aborts on the
phase-consistency assert exactly when the shared minibatch counter has
already reached 2 × the phase length — lazy creation is safe only below
that bound. -/
theorem C10_lazy_creation (name : String) (L c : ℕ) (w o : ℚ) (hL : 0 < L) :
    exceptIsError (updateStats ObjectiveFunctionInfo.init name L c w o) =
        true ↔
      2 * L ≤ c := by
  rw [updateStats_isError_iff]
  show (c / L ≠ 0 ∧ c / L ≠ 0 + 1) ↔ 2 * L ≤ c
  constructor
  · rintro ⟨h0, h1⟩
    have h2 : 2 ≤ c / L := (Nat.two_le_iff (c / L)).mpr ⟨h0, by simpa using h1⟩
    exact (Nat.le_div_iff_mul_le hL).mp h2
  · intro h
    have h2 : 2 ≤ c / L := (Nat.le_div_iff_mul_le hL).mpr h
    refine ⟨fun heq => ?_, fun heq => ?_⟩
    · rw [heq] at h2; exact absurd h2 (by decide)
    · rw [heq] at h2; exact absurd h2 (by decide)

/-- C10 witness: with the default print interval 100, a stream first seen
at shared counter 200 aborts, while one first seen at counter 199 does not. -/
theorem C10_witness :
    (exceptIsError (updateStats ObjectiveFunctionInfo.init "xent" 100 200 1 1)
        = true ↔ 2 * 100 ≤ 200) ∧
    (exceptIsError (updateStats ObjectiveFunctionInfo.init "xent" 100 199 1 1)
        = true ↔ 2 * 100 ≤ 199) :=
  ⟨C10_lazy_creation "xent" 100 200 1 1 (by decide),
   C10_lazy_creation "xent" 100 199 1 1 (by decide)⟩

/-- C6: when ProcessOutputs succeeds, the shared minibatch counter advances
by exactly the number of io streams whose node is classified as an output
node — once per output stream, not once per example, with a single counter
for all stream names. -/
theorem C6_counter_per_stream (nnet : List (String × Node))
    (print_interval : ℕ) (computer : List (String × Mat)) (eg : List NnetIo)
    (st st' : TrainerState) (reps : List (Option PhaseReport))
    (h : ProcessOutputs nnet print_interval computer eg st = .ok (st', reps)) :
    st'.num_minibatches_processed =
      st.num_minibatches_processed + countOutputStreams nnet eg :=
  processOutputs_counter nnet print_interval computer eg st st' reps h

/-- C6 witness: an example with two output streams advances the shared
counter from 0 to 2 — once per stream. -/
theorem C6_witness :
    ({ num_minibatches_processed := 2
       objf_info := [("a", ⟨0, 1, 2, 1, 2⟩), ("b", ⟨0, 1, 2, 1, 2⟩)] } :
        TrainerState).num_minibatches_processed =
      ({ num_minibatches_processed := 0, objf_info := [] } :
        TrainerState).num_minibatches_processed +
        countOutputStreams
          [("a", ⟨true, .kLinear⟩), ("b", ⟨true, .kLinear⟩)]
          [⟨"a", .fullMatrix [[1]]⟩, ⟨"b", .fullMatrix [[1]]⟩] :=
  C6_counter_per_stream
    [("a", ⟨true, .kLinear⟩), ("b", ⟨true, .kLinear⟩)] 100
    [("a", [[2]]), ("b", [[2]])]
    [⟨"a", .fullMatrix [[1]]⟩, ⟨"b", .fullMatrix [[1]]⟩]
    { num_minibatches_processed := 0, objf_info := [] }
    { num_minibatches_processed := 2
      objf_info := [("a", ⟨0, 1, 2, 1, 2⟩), ("b", ⟨0, 1, 2, 1, 2⟩)] }
    [none, none]
    (by simp [ProcessOutputs, lookupA, mapSet, updateStats, accumStats,
      ComputeObjectiveFunction, matNumCols, GeneralMatrix.NumCols, matSum,
      traceMatMat, dotRow, ObjectiveFunctionInfo.init, List.find?])

/-- C3: feeding UpdateStats strictly sequential counters 0, 1, 2, … with
phase length L never aborts; no report is emitted while the computed phase
equals the stream's current phase; the update whose counter is (p+1)·L
first flushes a report for phase p covering minibatches p·L … p·L+L−1 whose
average is the phase's objective sum over its weight sum, and only then are
the phase sub-totals reset and the triggering update accumulated, so right
after the boundary the phase sub-totals hold exactly that update. -/
theorem C3_sequential_phases (L : ℕ) (name : String) (u : List (ℚ × ℚ))
    (hL : 0 < L) :
    ∃ st reps, runSeq L name u = .ok (st, reps) ∧
      reps.length = u.length ∧
      (∀ k, k < u.length → k / L = (k - 1) / L → reps.getD k none = none) ∧
      (∀ p k, k < u.length → k = (p + 1) * L →
        reps.getD k none = some
          { output_name := name
            start_minibatch := p * L
            end_minibatch := p * L + L - 1
            average := (((u.drop (p * L)).take L).map Prod.snd).sum /
              (((u.drop (p * L)).take L).map Prod.fst).sum
            weight := (((u.drop (p * L)).take L).map Prod.fst).sum }) ∧
      (∀ p k, k < u.length → k = (p + 1) * L →
        ∃ st2 reps2, runSeq L name (u.take (k + 1)) = .ok (st2, reps2) ∧
          st2.current_phase = p + 1 ∧
          st2.tot_weight_this_phase = (u.getD k (0, 0)).1 ∧
          st2.tot_objf_this_phase = (u.getD k (0, 0)).2) := by
  refine ⟨specState L u, reportsFrom L name [] u, runSeq_specState L hL name u,
    reportsFrom_length L name u [], ?_, ?_, ?_⟩
  · intro k hk heq
    rw [reportsFrom_getD L name u [] k hk, List.nil_append, stepReport]
    have hlen : (u.take k).length = k := by
      rw [List.length_take]; omega
    rw [if_neg ?_]
    rintro ⟨h0, hdvd⟩
    rw [hlen] at h0 hdvd
    obtain ⟨m, rfl⟩ : ∃ m, k = m + 1 := ⟨k - 1, by omega⟩
    have heq2 : m / L + 1 = m / L := by
      rw [← Nat.succ_div_of_dvd hdvd]
      simpa using heq
    omega
  · intro p k hk hkEq
    subst hkEq
    have hlen : (u.take ((p + 1) * L)).length = (p + 1) * L := by
      rw [List.length_take]; omega
    have hsub : (p + 1) * L - p * L = L := by
      have h3 : (p + 1) * L = p * L + L := by ring
      omega
    have hc1 : (u.take ((p + 1) * L)).length ≠ 0 := by
      rw [hlen]
      exact Nat.mul_ne_zero (Nat.succ_ne_zero p) (Nat.pos_iff_ne_zero.mp hL)
    have hc2 : L ∣ (u.take ((p + 1) * L)).length := by
      rw [hlen]
      exact dvd_mul_left L (p + 1)
    rw [reportsFrom_getD L name u [] _ hk, List.nil_append, stepReport,
      if_pos ⟨hc1, hc2⟩]
    simp only [printStatsForThisPhase, specState, hlen,
      boundary_pred_div L p hL, List.drop_take, hsub]
  · intro p k hk hkEq
    refine ⟨specState L (u.take (k + 1)), reportsFrom L name [] (u.take (k + 1)),
      runSeq_specState L hL name _, ?_, ?_, ?_⟩
    · have hlen2 : (u.take (k + 1)).length = k + 1 := by
        rw [List.length_take]; omega
      rw [specState]
      simp only [hlen2, Nat.add_sub_cancel]
      rw [hkEq]
      exact boundary_div L p hL
    · have hlen2 : (u.take (k + 1)).length = k + 1 := by
        rw [List.length_take]; omega
      rw [specState]
      simp only [hlen2, Nat.add_sub_cancel]
      rw [hkEq, boundary_div L p hL, ← hkEq, List.drop_take,
        List.drop_eq_getElem_cons hk, Nat.add_sub_cancel_left,
        List.take_succ_cons, List.take_zero, List.getD_eq_getElem u (0, 0) hk]
      simp
    · have hlen2 : (u.take (k + 1)).length = k + 1 := by
        rw [List.length_take]; omega
      rw [specState]
      simp only [hlen2, Nat.add_sub_cancel]
      rw [hkEq, boundary_div L p hL, ← hkEq, List.drop_take,
        List.drop_eq_getElem_cons hk, Nat.add_sub_cancel_left,
        List.take_succ_cons, List.take_zero, List.getD_eq_getElem u (0, 0) hk]
      simp

/-- C3 witness: the sequential-phase theorem applied to a five-update run
with phase length 2. -/
theorem C3_witness :
    0 < 2 ∧
    (∃ st reps,
      runSeq 2 "output" [(1, 2), (3, 4), (5, 6), (7, 8), (9, 10)] =
          .ok (st, reps) ∧
      reps.length =
        ([(1, 2), (3, 4), (5, 6), (7, 8), (9, 10)] : List (ℚ × ℚ)).length ∧
      (∀ k, k < ([(1, 2), (3, 4), (5, 6), (7, 8), (9, 10)] :
          List (ℚ × ℚ)).length →
        k / 2 = (k - 1) / 2 → reps.getD k none = none) ∧
      (∀ p k, k < ([(1, 2), (3, 4), (5, 6), (7, 8), (9, 10)] :
          List (ℚ × ℚ)).length →
        k = (p + 1) * 2 →
        reps.getD k none = some
          { output_name := "output"
            start_minibatch := p * 2
            end_minibatch := p * 2 + 2 - 1
            average := (((([(1, 2), (3, 4), (5, 6), (7, 8), (9, 10)] :
                List (ℚ × ℚ)).drop (p * 2)).take 2).map Prod.snd).sum /
              (((([(1, 2), (3, 4), (5, 6), (7, 8), (9, 10)] :
                List (ℚ × ℚ)).drop (p * 2)).take 2).map Prod.fst).sum
            weight := (((([(1, 2), (3, 4), (5, 6), (7, 8), (9, 10)] :
                List (ℚ × ℚ)).drop (p * 2)).take 2).map Prod.fst).sum }) ∧
      (∀ p k, k < ([(1, 2), (3, 4), (5, 6), (7, 8), (9, 10)] :
          List (ℚ × ℚ)).length →
        k = (p + 1) * 2 →
        ∃ st2 reps2,
          runSeq 2 "output"
              (([(1, 2), (3, 4), (5, 6), (7, 8), (9, 10)] :
                List (ℚ × ℚ)).take (k + 1)) = .ok (st2, reps2) ∧
          st2.current_phase = p + 1 ∧
          st2.tot_weight_this_phase =
            (([(1, 2), (3, 4), (5, 6), (7, 8), (9, 10)] :
              List (ℚ × ℚ)).getD k (0, 0)).1 ∧
          st2.tot_objf_this_phase =
            (([(1, 2), (3, 4), (5, 6), (7, 8), (9, 10)] :
              List (ℚ × ℚ)).getD k (0, 0)).2)) :=
  ⟨by decide,
   C3_sequential_phases 2 "output" [(1, 2), (3, 4), (5, 6), (7, 8), (9, 10)]
     (by decide)⟩

end KaldiNnet3
